import Mathlib

/-
Shallow embedding of the core of keda-persistent-kafka-lag-scaler.

Modelling conventions:
* `time.Time` and `time.Duration` are modelled as unbounded `Int` (Go stores
  both as int64 nanoseconds; none of the verified properties depends on
  overflow behaviour).  `timeSecond` is the nanosecond value of `time.Second`.
* The Go maps keyed by partition id in `EvaluatePersistence` are modelled by
  the list of distinct partition ids of the input (`partitionsOf`) together
  with `groupOf` (a partition's samples in input order, exactly the slice the
  code appends to) and `latestOf` (the fold the code performs on
  `latestByPartition`).  Go map iteration order is unspecified, but the two
  folds the code performs over map entries (a disjunction with an early
  `break`, and an `Int` sum) are order-independent, so fixing an enumeration
  is observationally equal.
* `sort.Slice` with the strict `Before` comparator is modelled by the stable
  `List.insertionSort` on timestamps (`sortByTime`); the two agree up to the
  unspecified relative order of equal-timestamp samples.
* `os.Getenv` is modelled as a total function `String → String` that returns
  `""` for unset variables, exactly as `os.Getenv` does.
* Go slice aliasing for `SlidingWindow.Snapshot` is modelled by a small heap
  of arrays (`SliceHeap`), where `make`+`copy` allocates a fresh cell.
-/

/-- One nanosecond count of Go's `time.Second`. -/
def timeSecond : Int := 1000000000

/-- pkg/lag/sample.go: `LagSample`. -/
structure LagSample where
  timestamp : Int
  topic : String
  partition : Int
  lag : Int
  offset : Int
  endOffset : Int
  deriving DecidableEq, Inhabited

/-- pkg/lag/persistence.go: `EvaluationResult`. -/
structure EvaluationResult where
  persistent : Bool
  totalCurrentLag : Int
  deriving DecidableEq, Inhabited

/-- Timestamp order on samples (the comparator of the evaluator's sort). -/
def timeLE (a b : LagSample) : Prop := a.timestamp ≤ b.timestamp

instance : DecidableRel timeLE := fun a b => inferInstanceAs (Decidable (a.timestamp ≤ b.timestamp))

instance : IsTotal LagSample timeLE := ⟨fun a b => Int.le_total a.timestamp b.timestamp⟩

instance : IsTrans LagSample timeLE := ⟨fun _ _ _ hab hbc => le_trans hab hbc⟩

/-- The evaluator's per-partition `sort.Slice(..., Timestamp.Before)`,
modelled as a stable sort by timestamp. -/
def sortByTime (l : List LagSample) : List LagSample := List.insertionSort timeLE l

/-- pkg/lag/persistence.go: the loop body of `hasPersistentLag`.  The `Option
Int` argument is the `(stretchStart, inStretch)` pair of the Go code
(`none` = not in a stretch). -/
def hasPersistentLagAux (threshold sustainDuration : Int) :
    List LagSample → Option Int → Bool
  | [], _ => false
  | s :: rest, st =>
    if threshold ≤ s.lag then
      if sustainDuration ≤ s.timestamp - st.getD s.timestamp then true
      else hasPersistentLagAux threshold sustainDuration rest (some (st.getD s.timestamp))
    else hasPersistentLagAux threshold sustainDuration rest none

/-- pkg/lag/persistence.go: `hasPersistentLag`. -/
def hasPersistentLag (samples : List LagSample) (threshold sustainDuration : Int) : Bool :=
  hasPersistentLagAux threshold sustainDuration samples none

/-- The distinct partition ids present in the input (the key set of the
`byPartition` / `latestByPartition` maps). -/
def partitionsOf (samples : List LagSample) : List Int :=
  (samples.map (·.partition)).dedup

/-- `byPartition[p]`: the samples of partition `p` in input order (the order
in which the Go code appends them). -/
def groupOf (p : Int) (samples : List LagSample) : List LagSample :=
  samples.filter (fun s => decide (s.partition = p))

/-- One step of the `latestByPartition` update: replace the tracked sample
only when the new one has a strictly later timestamp
(`s.Timestamp.After(existing.Timestamp)`). -/
def latestStep (acc : Option LagSample) (s : LagSample) : Option LagSample :=
  match acc with
  | none => some s
  | some e => if e.timestamp < s.timestamp then some s else some e

/-- The value `latestByPartition[p]` holds after the grouping loop, computed
from partition `p`'s samples in input order. -/
def latestOf (l : List LagSample) : Option LagSample :=
  l.foldl latestStep none

/-- pkg/lag/persistence.go: `EvaluatePersistence`. -/
def EvaluatePersistence (samples : List LagSample) (threshold sustainDuration : Int) :
    EvaluationResult :=
  if samples.isEmpty then ⟨false, 0⟩
  else
    { persistent := (partitionsOf samples).any fun p =>
        hasPersistentLag (sortByTime (groupOf p samples)) threshold sustainDuration
      totalCurrentLag := ((partitionsOf samples).map fun p =>
        ((latestOf (groupOf p samples)).map (·.lag)).getD 0).sum }

/-- pkg/lag/window.go: `evict`.  `cutoff = now - windowDuration`; the loop
drops the longest prefix of samples with `Timestamp.Before(cutoff)`. -/
def evictSamples (now windowDuration : Int) (samples : List LagSample) : List LagSample :=
  samples.dropWhile (fun s => decide (s.timestamp < now - windowDuration))

/-- pkg/lag/window.go: `Add` followed by `evict`, with the clock passed
explicitly (`now` is read at the start of eviction, after the append). -/
def windowAdd (now windowDuration : Int) (state batch : List LagSample) : List LagSample :=
  evictSamples now windowDuration (state ++ batch)

/-- A heap of Go slices, to model the aliasing behaviour of
`SlidingWindow.Snapshot` (`make` + `copy`). -/
structure SliceHeap where
  arrays : List (List LagSample)
  deriving DecidableEq, Inhabited

/-- Read the contents of slice `r`. -/
def readSlice (h : SliceHeap) (r : Nat) : List LagSample :=
  (h.arrays.get? r).getD []

/-- pkg/lag/window.go: `Snapshot`.  Allocates a fresh slice (`make`), copies
the window's samples into it (`copy`) and returns a reference to the new
slice. -/
def snapshotOp (h : SliceHeap) (wref : Nat) : SliceHeap × Nat :=
  (⟨h.arrays ++ [readSlice h wref]⟩, h.arrays.length)

/-- An in-place element write through a slice reference (what a caller
mutating the returned snapshot performs). -/
def writeSlice (h : SliceHeap) (r i : Nat) (v : LagSample) : SliceHeap :=
  ⟨h.arrays.set r ((readSlice h r).set i v)⟩

/-- pkg/config/config.go: `ScalerConfig`.  Durations are int64 nanoseconds. -/
structure ScalerConfig where
  bootstrapServers : String
  topic : String
  consumerGroup : String
  lagThreshold : Int
  sustainDuration : Int
  samplingInterval : Int
  windowSize : Int
  deriving DecidableEq, Inhabited

/-- pkg/config/config.go: `getMetadataOrEnv`.  A metadata entry wins only
when present and non-empty; otherwise the environment variable wins when
non-empty; otherwise the default. -/
def getMetadataOrEnv (md : List (String × String)) (key envKey dflt : String)
    (env : String → String) : String :=
  match md.lookup key with
  | some v => if v ≠ "" then v else (if env envKey ≠ "" then env envKey else dflt)
  | none => if env envKey ≠ "" then env envKey else dflt

/-- Accumulate decimal digits; any non-digit character fails. -/
def digitsToNatAux : List Char → Nat → Option Nat
  | [], acc => some acc
  | c :: cs, acc =>
    if c.isDigit then digitsToNatAux cs (acc * 10 + (c.toNat - '0'.toNat)) else none

/-- `strconv.ParseInt` (base 10) / `strconv.Atoi`: an optional sign followed
by at least one decimal digit; anything else fails.  (Go additionally
rejects values overflowing int64; the claims do not depend on that.) -/
def parseIntString (s : String) : Option Int :=
  match s.data with
  | [] => none
  | ['-'] => none
  | ['+'] => none
  | '-' :: ds => (digitsToNatAux ds 0).map fun n => -(n : Int)
  | '+' :: ds => (digitsToNatAux ds 0).map fun n => (n : Int)
  | ds => (digitsToNatAux ds 0).map fun n => (n : Int)

/-- pkg/config/config.go: one numeric field block of `ParseFromMetadata`.
A present metadata value (even an empty or malformed one) is parsed and a
parse failure is an error; only an absent key falls back to the environment
variable, whose malformed non-empty value is likewise an error; otherwise
the default stands. -/
def resolveIntField (md : List (String × String)) (env : String → String)
    (key envKey : String) (dflt : Int) (errMeta errEnv : String) : Except String Int :=
  match md.lookup key with
  | some v =>
    match parseIntString v with
    | some n => Except.ok n
    | none => Except.error errMeta
  | none =>
    if env envKey ≠ "" then
      match parseIntString (env envKey) with
      | some n => Except.ok n
      | none => Except.error errEnv
    else Except.ok dflt

/-- pkg/config/config.go: `ParseFromMetadata` (with the process environment
passed explicitly).  Mirrors the Go order: required-field checks first, then
`lagThreshold`, `sustainSeconds`, `samplingInterval`, `windowSize`. -/
def ParseFromMetadata (md : List (String × String)) (env : String → String) :
    Except String ScalerConfig :=
  let bootstrapServers := getMetadataOrEnv md "bootstrapServers" "KAFKA_BROKERS" "localhost:9092" env
  let topic := getMetadataOrEnv md "topic" "KAFKA_TOPIC" "" env
  let consumerGroup := getMetadataOrEnv md "consumerGroup" "KAFKA_GROUP_ID" "" env
  if topic = "" then Except.error "topic is required"
  else if consumerGroup = "" then Except.error "consumerGroup is required"
  else
    (resolveIntField md env "lagThreshold" "LAG_THRESHOLD" 500
        "invalid lagThreshold" "invalid LAG_THRESHOLD").bind fun lagThreshold =>
    (resolveIntField md env "sustainSeconds" "SUSTAIN_SECONDS" 120
        "invalid sustainSeconds" "invalid SUSTAIN_SECONDS").bind fun sustainSeconds =>
    (resolveIntField md env "samplingInterval" "SAMPLING_INTERVAL" 10
        "invalid samplingInterval" "invalid SAMPLING_INTERVAL").bind fun samplingInterval =>
    (resolveIntField md env "windowSize" "WINDOW_SIZE" 30
        "invalid windowSize" "invalid WINDOW_SIZE").bind fun windowSize =>
    Except.ok
      { bootstrapServers := bootstrapServers
        topic := topic
        consumerGroup := consumerGroup
        lagThreshold := lagThreshold
        sustainDuration := sustainSeconds * timeSecond
        samplingInterval := samplingInterval * timeSecond
        windowSize := windowSize }

/-- pkg/kafka/lag_fetcher.go: the per-partition derivation at the end of
`FetchLag`.  A negative committed offset (the broker's "no committed offset"
sentinel) is replaced by 0, and the lag is `end - committed` clamped at 0. -/
def deriveSample (now : Int) (topic : String) (pid endOffset rawCommitted : Int) : LagSample :=
  let committed := if rawCommitted < 0 then 0 else rawCommitted
  let lagValue := if endOffset - committed < 0 then 0 else endOffset - committed
  { timestamp := now, topic := topic, partition := pid,
    lag := lagValue, offset := committed, endOffset := endOffset }

/-- pkg/kafka/lag_fetcher.go: `FetchLag`'s sample-emission loop over the
partition list, as a function of the per-partition
`(id, end offset, raw committed offset)` triples reported by the broker;
every emitted sample carries the common timestamp `now` taken once at the
start of the call. -/
def FetchLag (now : Int) (topic : String) (parts : List (Int × Int × Int)) : List LagSample :=
  parts.map fun t => deriveSample now topic t.1 t.2.1 t.2.2

/-- pkg/server/server.go: `evaluate` (snapshot the window, run the evaluator
with the configured threshold and sustain duration). -/
def serverEvaluate (snapshot : List LagSample) (cfg : ScalerConfig) : EvaluationResult :=
  EvaluatePersistence snapshot cfg.lagThreshold cfg.sustainDuration

/-- pkg/server/server.go: `IsActive`.  Always returns `nil` error. -/
def IsActive (snapshot : List LagSample) (cfg : ScalerConfig) : Except String Bool :=
  Except.ok (serverEvaluate snapshot cfg).persistent

/-- pkg/server/server.go: `GetMetrics`.  Always returns `nil` error and a
single metric entry. -/
def GetMetrics (snapshot : List LagSample) (cfg : ScalerConfig) :
    Except String (List (String × Int)) :=
  let result := serverEvaluate snapshot cfg
  let metricValue : Int := if result.persistent then result.totalCurrentLag else 0
  Except.ok [("persistent_kafka_lag", metricValue)]

/-
Specification-side predicates for claim C1, written from the spec's words:
persistence holds exactly when the sorted samples of some partition contain a
consecutive run of at-or-above-threshold samples spanning at least the
sustain duration.
-/

/-- A consecutive run somewhere inside `l`: every sample of the run has lag
at or above the threshold and the run's last-minus-first timestamp span is at
least the sustain duration. -/
def runSpec (threshold sustainDuration : Int) (l : List LagSample) : Prop :=
  ∃ pre post a mid, l = pre ++ (a :: mid) ++ post ∧
    (∀ s ∈ a :: mid, threshold ≤ s.lag) ∧
    sustainDuration ≤ (mid.getLastD a).timestamp - a.timestamp

/-- A qualifying run that is a prefix of `l` and extends a stretch already
open since time `st`. -/
def prefixRunSpec (threshold sustainDuration st : Int) (l : List LagSample) : Prop :=
  ∃ a mid post, l = (a :: mid) ++ post ∧
    (∀ s ∈ a :: mid, threshold ≤ s.lag) ∧
    sustainDuration ≤ (mid.getLastD a).timestamp - st

lemma runSpec_nil (t d : Int) : ¬ runSpec t d [] := by
  rintro ⟨pre, post, a, mid, h, -, -⟩
  simp at h

lemma prefixRunSpec_nil (t d st : Int) : ¬ prefixRunSpec t d st [] := by
  rintro ⟨a, mid, post, h, -, -⟩
  simp at h

lemma runSpec_cons_of {t d : Int} {s : LagSample} {rest : List LagSample}
    (h : runSpec t d rest) : runSpec t d (s :: rest) := by
  obtain ⟨pre, post, a, mid, heq, hlag, hspan⟩ := h
  exact ⟨s :: pre, post, a, mid, by simp [heq], hlag, hspan⟩

lemma runSpec_cons_iff_of_lt {t d : Int} {s : LagSample} {rest : List LagSample}
    (hs : ¬ t ≤ s.lag) : runSpec t d (s :: rest) ↔ runSpec t d rest := by
  constructor
  · rintro ⟨pre, post, a, mid, heq, hlag, hspan⟩
    cases pre with
    | nil =>
      exfalso
      simp only [List.nil_append, List.cons_append, List.cons.injEq] at heq
      obtain ⟨ha, -⟩ := heq
      exact hs (by rw [ha]; exact hlag a (List.mem_cons_self a mid))
    | cons x pre' =>
      simp only [List.cons_append, List.cons.injEq] at heq
      obtain ⟨-, hrest⟩ := heq
      exact ⟨pre', post, a, mid, hrest, hlag, hspan⟩
  · exact runSpec_cons_of

/-- Correctness of the stretch-walking loop on a timestamp-sorted list: with
no stretch open it finds exactly the consecutive runs of `runSpec`; with a
stretch open since `st` (where `st` is at or before every remaining
timestamp) it finds those runs or a prefix run extending the stretch. -/
lemma hasPersistentLagAux_spec (t d : Int) :
    ∀ l : List LagSample, l.Pairwise timeLE →
      (hasPersistentLagAux t d l none = true ↔ runSpec t d l) ∧
      ∀ st : Int, (∀ s ∈ l, st ≤ s.timestamp) →
        (hasPersistentLagAux t d l (some st) = true ↔
          (prefixRunSpec t d st l ∨ runSpec t d l)) := by
  intro l
  induction l with
  | nil =>
    intro _
    refine ⟨iff_of_false (by simp [hasPersistentLagAux]) (runSpec_nil t d), ?_⟩
    intro st _
    refine iff_of_false (by simp [hasPersistentLagAux]) ?_
    rintro (h | h)
    · exact prefixRunSpec_nil t d st h
    · exact runSpec_nil t d h
  | cons s rest ih =>
    intro hpair
    obtain ⟨hhead, hrest_pair⟩ := List.pairwise_cons.mp hpair
    obtain ⟨ih1, ih2⟩ := ih hrest_pair
    refine ⟨?_, ?_⟩
    · -- no stretch open
      by_cases hs : t ≤ s.lag
      · by_cases hd : d ≤ s.timestamp - s.timestamp
        · have hL : hasPersistentLagAux t d (s :: rest) none = true := by
            simp only [hasPersistentLagAux, Option.getD_none, if_pos hs, if_pos hd]
          rw [hL]
          exact iff_of_true rfl ⟨[], rest, s, [], by simp, by simpa using hs, by simpa using hd⟩
        · have step : hasPersistentLagAux t d (s :: rest) none
              = hasPersistentLagAux t d rest (some s.timestamp) := by
            simp only [hasPersistentLagAux, Option.getD_none, if_pos hs, if_neg hd]
          rw [step, ih2 s.timestamp (fun x hx => hhead x hx)]
          constructor
          · rintro (⟨a, mid, post, heq, hlag, hspan⟩ | hrun)
            · refine ⟨[], post, s, a :: mid, by simp [heq], ?_, ?_⟩
              · intro x hx
                rcases List.mem_cons.mp hx with hx | hx
                · exact hx ▸ hs
                · exact hlag x hx
              · rw [List.getLastD_cons]
                exact hspan
            · exact runSpec_cons_of hrun
          · rintro ⟨pre, post, a, mid, heq, hlag, hspan⟩
            cases pre with
            | cons x pre' =>
              right
              simp only [List.cons_append, List.cons.injEq] at heq
              exact ⟨pre', post, a, mid, heq.2, hlag, hspan⟩
            | nil =>
              simp only [List.nil_append, List.cons_append, List.cons.injEq] at heq
              obtain ⟨ha, hrest⟩ := heq
              subst ha
              cases mid with
              | nil =>
                exact absurd (by simpa using hspan) hd
              | cons m mid' =>
                left
                refine ⟨m, mid', post, by simpa using hrest, ?_, ?_⟩
                · intro x hx
                  exact hlag x (List.mem_cons_of_mem s hx)
                · rw [List.getLastD_cons] at hspan
                  exact hspan
      · have step : hasPersistentLagAux t d (s :: rest) none
            = hasPersistentLagAux t d rest none := by
          simp [hasPersistentLagAux, hs]
        rw [step, ih1]
        exact (runSpec_cons_iff_of_lt hs).symm
    · -- stretch open since st
      intro st hst
      have hstS : st ≤ s.timestamp := hst s (List.mem_cons_self s rest)
      have hstRest : ∀ x ∈ rest, st ≤ x.timestamp :=
        fun x hx => hst x (List.mem_cons_of_mem s hx)
      by_cases hs : t ≤ s.lag
      · by_cases hd : d ≤ s.timestamp - st
        · have hL : hasPersistentLagAux t d (s :: rest) (some st) = true := by
            simp [hasPersistentLagAux, hs, hd]
          rw [hL]
          exact iff_of_true rfl
            (Or.inl ⟨s, [], rest, by simp, by simpa using hs, by simpa using hd⟩)
        · have step : hasPersistentLagAux t d (s :: rest) (some st)
              = hasPersistentLagAux t d rest (some st) := by
            simp [hasPersistentLagAux, hs, hd]
          rw [step, ih2 st hstRest]
          constructor
          · rintro (⟨a, mid, post, heq, hlag, hspan⟩ | hrun)
            · left
              refine ⟨s, a :: mid, post, by simp [heq], ?_, ?_⟩
              · intro x hx
                rcases List.mem_cons.mp hx with hx | hx
                · exact hx ▸ hs
                · exact hlag x hx
              · rw [List.getLastD_cons]
                exact hspan
            · right
              exact runSpec_cons_of hrun
          · rintro (⟨a, mid, post, heq, hlag, hspan⟩ | hrun)
            · simp only [List.cons_append, List.cons.injEq] at heq
              obtain ⟨ha, hrest⟩ := heq
              subst ha
              cases mid with
              | nil =>
                exact absurd (by simpa using hspan) hd
              | cons m mid' =>
                left
                refine ⟨m, mid', post, by simpa using hrest, ?_, ?_⟩
                · intro x hx
                  exact hlag x (List.mem_cons_of_mem s hx)
                · rw [List.getLastD_cons] at hspan
                  exact hspan
            · obtain ⟨pre, post, a, mid, heq, hlag, hspan⟩ := hrun
              cases pre with
              | cons x pre' =>
                right
                simp only [List.cons_append, List.cons.injEq] at heq
                exact ⟨pre', post, a, mid, heq.2, hlag, hspan⟩
              | nil =>
                simp only [List.nil_append, List.cons_append, List.cons.injEq] at heq
                obtain ⟨ha, hrest⟩ := heq
                subst ha
                cases mid with
                | nil =>
                  exfalso
                  apply hd
                  have h0 : d ≤ 0 := by simpa using hspan
                  omega
                | cons m mid' =>
                  left
                  refine ⟨m, mid', post, by simpa using hrest, ?_, ?_⟩
                  · intro x hx
                    exact hlag x (List.mem_cons_of_mem s hx)
                  · rw [List.getLastD_cons] at hspan
                    omega
      · have step : hasPersistentLagAux t d (s :: rest) (some st)
            = hasPersistentLagAux t d rest none := by
          simp [hasPersistentLagAux, hs]
        rw [step, ih1]
        constructor
        · intro hrun
          right
          exact runSpec_cons_of hrun
        · rintro (⟨a, mid, post, heq, hlag, -⟩ | hrun)
          · exfalso
            simp only [List.cons_append, List.cons.injEq] at heq
            exact hs (by rw [heq.1]; exact hlag a (List.mem_cons_self a mid))
          · exact (runSpec_cons_iff_of_lt hs).mp hrun

/-- Claim C1: `EvaluatePersistence` returns `persistent = true` exactly when
some partition's samples, sorted by timestamp ascending, contain a
consecutive run in which every sample has lag at or above the threshold and
whose last-minus-first timestamp span is at least the sustain duration
(`runSpec`, whose comparison is non-strict, so a run spanning exactly the
sustain duration counts and a single below-threshold sample breaks any run);
the empty input yields `persistent = false`. -/
theorem EvaluatePersistence_persistent_iff (samples : List LagSample)
    (threshold sustainDuration : Int) :
    ((EvaluatePersistence samples threshold sustainDuration).persistent = true ↔
      ∃ p ∈ partitionsOf samples,
        runSpec threshold sustainDuration (sortByTime (groupOf p samples))) ∧
    (EvaluatePersistence [] threshold sustainDuration).persistent = false := by
  refine ⟨?_, rfl⟩
  cases samples with
  | nil =>
    simp [EvaluatePersistence, partitionsOf]
  | cons s0 rest0 =>
    have hpers : (EvaluatePersistence (s0 :: rest0) threshold sustainDuration).persistent
        = (s0 :: rest0 |> partitionsOf).any fun p =>
            hasPersistentLag (sortByTime (groupOf p (s0 :: rest0))) threshold sustainDuration := by
      simp [EvaluatePersistence]
    rw [hpers, List.any_eq_true]
    exact exists_congr fun p => and_congr_right fun _ =>
      (hasPersistentLagAux_spec threshold sustainDuration _
        (List.sorted_insertionSort timeLE (groupOf p (s0 :: rest0)))).1

/-- The `latestByPartition` fold, started from a tracked sample `e`, returns
either `e` itself (when nothing later follows) or an element of the rest of
the list that is strictly later than everything before it and at least as
late as everything after it. -/
lemma latestOf_fold (l : List LagSample) : ∀ e : LagSample,
    ∃ m, l.foldl latestStep (some e) = some m ∧ e.timestamp ≤ m.timestamp ∧
      ((m = e ∧ ∀ s ∈ l, s.timestamp ≤ e.timestamp) ∨
       ∃ pre post, l = pre ++ m :: post ∧ e.timestamp < m.timestamp ∧
         (∀ s ∈ pre, s.timestamp < m.timestamp) ∧
         (∀ s ∈ post, s.timestamp ≤ m.timestamp)) := by
  induction l with
  | nil =>
    intro e
    exact ⟨e, rfl, le_refl _, Or.inl ⟨rfl, by simp⟩⟩
  | cons s l' ih =>
    intro e
    by_cases h : e.timestamp < s.timestamp
    · obtain ⟨m, hm, hle, hcase⟩ := ih s
      refine ⟨m, by simpa [latestStep, h] using hm, by omega, ?_⟩
      rcases hcase with ⟨hme, hall⟩ | ⟨pre, post, heq, hlt, hpre, hpost⟩
      · subst hme
        exact Or.inr ⟨[], l', by simp, h, by simp, hall⟩
      · refine Or.inr ⟨s :: pre, post, by simp [heq], by omega, ?_, hpost⟩
        intro x hx
        rcases List.mem_cons.mp hx with hx | hx
        · subst hx; exact hlt
        · exact hpre x hx
    · obtain ⟨m, hm, hle, hcase⟩ := ih e
      refine ⟨m, by simpa [latestStep, h] using hm, hle, ?_⟩
      rcases hcase with ⟨hme, hall⟩ | ⟨pre, post, heq, hlt, hpre, hpost⟩
      · refine Or.inl ⟨hme, ?_⟩
        intro x hx
        rcases List.mem_cons.mp hx with hx | hx
        · subst hx; omega
        · exact hall x hx
      · refine Or.inr ⟨s :: pre, post, by simp [heq], hlt, ?_, hpost⟩
        intro x hx
        rcases List.mem_cons.mp hx with hx | hx
        · subst hx; omega
        · exact hpre x hx

/-- For a non-empty group, `latestOf` returns the first sample of maximal
timestamp in input order: every earlier sample is strictly older and every
sample of the group is at most as late. -/
lemma latestOf_char (g : List LagSample) (hg : g ≠ []) :
    ∃ m pre post, latestOf g = some m ∧ g = pre ++ m :: post ∧
      (∀ x ∈ pre, x.timestamp < m.timestamp) ∧
      (∀ x ∈ g, x.timestamp ≤ m.timestamp) := by
  cases g with
  | nil => exact absurd rfl hg
  | cons s g' =>
    obtain ⟨m, hm, hle, hcase⟩ := latestOf_fold g' s
    have hfold : latestOf (s :: g') = some m := by
      simpa [latestOf, latestStep] using hm
    rcases hcase with ⟨hme, hall⟩ | ⟨pre, post, heq, hlt, hpre, hpost⟩
    · subst hme
      refine ⟨m, [], g', hfold, by simp, by simp, ?_⟩
      intro x hx
      rcases List.mem_cons.mp hx with hx | hx
      · subst hx; exact le_refl _
      · exact hall x hx
    · refine ⟨m, s :: pre, post, hfold, by simp [heq], ?_, ?_⟩
      · intro x hx
        rcases List.mem_cons.mp hx with hx | hx
        · subst hx; exact hlt
        · exact hpre x hx
      · intro x hx
        rcases List.mem_cons.mp hx with hx | hx
        · subst hx; exact le_of_lt hlt
        · rw [heq] at hx
          rcases List.mem_append.mp hx with hx | hx
          · exact le_of_lt (hpre x hx)
          · rcases List.mem_cons.mp hx with hx | hx
            · subst hx; exact le_refl _
            · exact hpost x hx

/-- A partition id present in the input has a non-empty group. -/
lemma groupOf_ne_nil {p : Int} {samples : List LagSample}
    (hp : p ∈ partitionsOf samples) : groupOf p samples ≠ [] := by
  have hp' : p ∈ samples.map (·.partition) := List.mem_dedup.mp hp
  obtain ⟨s, hs, hps⟩ := List.mem_map.mp hp'
  exact List.ne_nil_of_mem (List.mem_filter.mpr ⟨hs, by simp [hps]⟩)

/-- Claim C2: the `totalCurrentLag` of `EvaluatePersistence` is the sum, over
the distinct partition ids present in the input, of the lag of that
partition's largest-timestamp sample; the empty input yields 0. -/
theorem EvaluatePersistence_totalCurrentLag_latest_sum
    (samples : List LagSample) (threshold sustainDuration : Int) :
    (∃ latest : Int → LagSample,
      (∀ p ∈ partitionsOf samples,
        latest p ∈ groupOf p samples ∧
        ∀ s ∈ groupOf p samples, s.timestamp ≤ (latest p).timestamp) ∧
      (EvaluatePersistence samples threshold sustainDuration).totalCurrentLag
        = ((partitionsOf samples).map fun p => (latest p).lag).sum) ∧
    (partitionsOf samples).Nodup ∧
    (∀ q : Int, q ∈ partitionsOf samples ↔ ∃ s ∈ samples, s.partition = q) ∧
    (EvaluatePersistence [] threshold sustainDuration).totalCurrentLag = 0 := by
  refine ⟨⟨fun p => (latestOf (groupOf p samples)).getD default, ?_, ?_⟩,
    List.nodup_dedup _, ?_, rfl⟩
  · intro p hp
    obtain ⟨m, pre, post, hfold, heq, hpre, hall⟩ :=
      latestOf_char _ (groupOf_ne_nil hp)
    dsimp only
    rw [hfold]
    simp only [Option.getD_some]
    constructor
    · rw [heq]
      exact List.mem_append.mpr (Or.inr (List.mem_cons_self m post))
    · exact hall
  · cases samples with
    | nil => rfl
    | cons s0 rest0 =>
      have htot : (EvaluatePersistence (s0 :: rest0) threshold sustainDuration).totalCurrentLag
          = ((partitionsOf (s0 :: rest0)).map fun p =>
              ((latestOf (groupOf p (s0 :: rest0))).map (·.lag)).getD 0).sum := by
        simp [EvaluatePersistence]
      rw [htot]
      apply congrArg List.sum
      apply List.map_congr_left
      intro p hp
      obtain ⟨m, pre, post, hfold, -, -, -⟩ :=
        latestOf_char _ (groupOf_ne_nil hp)
      dsimp only
      rw [hfold]
      rfl
  · intro q
    simp [partitionsOf, List.mem_dedup, List.mem_map]

/-- The first element satisfying a predicate in a split list is found by
`find?` when everything before it fails the predicate. -/
lemma find?_first_of_split {α : Type} (p : α → Bool) (pre post : List α) (m : α)
    (hpre : ∀ x ∈ pre, p x = false) (hm : p m = true) :
    (pre ++ m :: post).find? p = some m := by
  induction pre with
  | nil => simpa using List.find?_cons_of_pos post hm
  | cons x xs ih =>
    have hx : p x = false := hpre x (List.mem_cons_self x xs)
    have step : ((x :: xs) ++ m :: post).find? p = (xs ++ m :: post).find? p := by
      simpa using List.find?_cons_of_neg (xs ++ m :: post) (by simp [hx])
    rw [step]
    exact ih fun y hy => hpre y (List.mem_cons_of_mem x hy)

/-- Claim C9: the tracked latest sample of a partition is replaced only by a
strictly later timestamp, so with timestamp ties the first such sample in
input order wins: `totalCurrentLag` is the sum over distinct partitions of
the lag of the first largest-timestamp sample of the group, a deterministic
function of the input list. -/
theorem EvaluatePersistence_latest_first_max (samples : List LagSample)
    (threshold sustainDuration : Int) :
    (EvaluatePersistence samples threshold sustainDuration).totalCurrentLag
      = ((partitionsOf samples).map fun p =>
          (((groupOf p samples).find? fun s =>
              (groupOf p samples).all fun r => decide (r.timestamp ≤ s.timestamp)).map
            (·.lag)).getD 0).sum := by
  cases samples with
  | nil => rfl
  | cons s0 rest0 =>
    have htot : (EvaluatePersistence (s0 :: rest0) threshold sustainDuration).totalCurrentLag
        = ((partitionsOf (s0 :: rest0)).map fun p =>
            ((latestOf (groupOf p (s0 :: rest0))).map (·.lag)).getD 0).sum := by
      simp [EvaluatePersistence]
    rw [htot]
    apply congrArg List.sum
    apply List.map_congr_left
    intro p hp
    obtain ⟨m, pre, post, hfold, heq, hpre, hall⟩ :=
      latestOf_char _ (groupOf_ne_nil hp)
    have hmem : m ∈ groupOf p (s0 :: rest0) := by
      rw [heq]
      exact List.mem_append.mpr (Or.inr (List.mem_cons_self m post))
    have hfind : ((groupOf p (s0 :: rest0)).find? fun s =>
        (groupOf p (s0 :: rest0)).all fun r => decide (r.timestamp ≤ s.timestamp)) = some m := by
      rw [heq]
      apply find?_first_of_split
      · intro x hx
        rw [Bool.eq_false_iff]
        intro hAll
        have := (List.all_eq_true.mp hAll) m (heq ▸ hmem)
        have hxm : x.timestamp < m.timestamp := hpre x hx
        simp at this
        omega
      · rw [List.all_eq_true]
        intro r hr
        have := hall r (heq ▸ hr)
        simpa using this
    rw [hfold, hfind]

/-- Dropping the stale prefix of a timestamp-sorted list leaves only samples
whose age relative to `now` is at most the window duration. -/
lemma age_le_of_mem_dropWhile (now windowDuration : Int) :
    ∀ l : List LagSample, l.Pairwise timeLE →
      ∀ s ∈ l.dropWhile (fun s => decide (s.timestamp < now - windowDuration)),
        now - s.timestamp ≤ windowDuration := by
  intro l
  induction l with
  | nil =>
    intro _ s hs
    simp [List.dropWhile] at hs
  | cons x xs ih =>
    intro hpair s hs
    obtain ⟨hhead, htail⟩ := List.pairwise_cons.mp hpair
    by_cases hx : x.timestamp < now - windowDuration
    · rw [List.dropWhile_cons_of_pos (by simpa using hx)] at hs
      exact ih htail s hs
    · rw [List.dropWhile_cons_of_neg (by simpa using hx)] at hs
      rcases List.mem_cons.mp hs with hs | hs
      · subst hs; omega
      · have := hhead s hs
        have hts : x.timestamp ≤ s.timestamp := this
        omega

/-- Claim C3 (amended): when the window's contents plus the added batch are
in non-decreasing timestamp order, every sample retained after `Add` has age
at most the window duration, `now` being read at the start of eviction.  The
bound is non-strict: a sample exactly as old as the window duration is
retained. -/
theorem windowAdd_age_le (now windowDuration : Int)
    (state batch : List LagSample)
    (hsorted : (state ++ batch).Pairwise timeLE) :
    ∀ s ∈ windowAdd now windowDuration state batch,
      now - s.timestamp ≤ windowDuration :=
  age_le_of_mem_dropWhile now windowDuration (state ++ batch) hsorted

/-- Witness for `windowAdd_age_le` at a concrete sorted window and a
concrete retained sample. -/
theorem windowAdd_age_le_witness :
    (10 : Int) - (⟨6, "t", 0, 1, 0, 1⟩ : LagSample).timestamp ≤ 5 :=
  windowAdd_age_le 10 5 [⟨6, "t", 0, 1, 0, 1⟩] [⟨10, "t", 0, 2, 0, 2⟩]
    (by
      constructor
      · intro b hb
        simp at hb
        subst hb
        exact (by omega : (6 : Int) ≤ 10)
      · simp)
    ⟨6, "t", 0, 1, 0, 1⟩ (by decide)

/-- Claim C3 fails as stated: eviction only scans a prefix and compares with
a strict `Before`.  An out-of-order batch `[fresh, old]` retains `old` even
though its age (10) is not below the window duration (5); and a sample whose
age equals the window duration exactly (5) is retained although `now − s.T <
W` demands a strict bound. -/
theorem windowAdd_age_counterexample :
    ((⟨0, "t", 0, 0, 0, 0⟩ : LagSample) ∈
        windowAdd 10 5 [] [⟨10, "t", 0, 0, 0, 0⟩, ⟨0, "t", 0, 0, 0, 0⟩] ∧
      ¬ ((10 : Int) - (⟨0, "t", 0, 0, 0, 0⟩ : LagSample).timestamp < 5)) ∧
    ((⟨5, "t", 0, 0, 0, 0⟩ : LagSample) ∈ windowAdd 10 5 [] [⟨5, "t", 0, 0, 0, 0⟩] ∧
      ¬ ((10 : Int) - (⟨5, "t", 0, 0, 0, 0⟩ : LagSample).timestamp < 5)) := by
  refine ⟨⟨?_, by decide⟩, ⟨?_, by decide⟩⟩ <;> decide

/-- Claim C8: `Snapshot` returns a freshly allocated copy.  The returned
reference differs from the window's, it initially reads equal to the
window's contents, and writing any element through it leaves every
subsequent read of the window's slice — hence `Snapshot` and `Len` —
unchanged. -/
theorem Snapshot_independent (h : SliceHeap) (wref : Nat)
    (hw : wref < h.arrays.length) (i : Nat) (v : LagSample) :
    (snapshotOp h wref).2 ≠ wref ∧
    readSlice (snapshotOp h wref).1 (snapshotOp h wref).2 = readSlice h wref ∧
    readSlice (writeSlice (snapshotOp h wref).1 (snapshotOp h wref).2 i v) wref
      = readSlice h wref := by
  refine ⟨?_, ?_, ?_⟩
  · show h.arrays.length ≠ wref
    omega
  · show ((h.arrays ++ [readSlice h wref]).get? h.arrays.length).getD [] = readSlice h wref
    rw [List.get?_eq_getElem?, List.getElem?_concat_length]
    rfl
  · show (((h.arrays ++ [readSlice h wref]).set h.arrays.length _).get? wref).getD []
        = readSlice h wref
    rw [List.get?_eq_getElem?, List.getElem?_set_ne (by omega),
      List.getElem?_append_left (by simpa using hw)]
    rw [readSlice, List.get?_eq_getElem?]

/-- Witness for `Snapshot_independent` on a one-slice heap. -/
theorem Snapshot_independent_witness :
    (snapshotOp ⟨[[⟨1, "t", 0, 7, 0, 7⟩]]⟩ 0).2 ≠ 0 ∧
    readSlice (snapshotOp ⟨[[⟨1, "t", 0, 7, 0, 7⟩]]⟩ 0).1
        (snapshotOp ⟨[[⟨1, "t", 0, 7, 0, 7⟩]]⟩ 0).2
      = readSlice ⟨[[⟨1, "t", 0, 7, 0, 7⟩]]⟩ 0 ∧
    readSlice (writeSlice (snapshotOp ⟨[[⟨1, "t", 0, 7, 0, 7⟩]]⟩ 0).1
        (snapshotOp ⟨[[⟨1, "t", 0, 7, 0, 7⟩]]⟩ 0).2 0 ⟨9, "u", 1, 9, 9, 9⟩) 0
      = readSlice ⟨[[⟨1, "t", 0, 7, 0, 7⟩]]⟩ 0 :=
  Snapshot_independent ⟨[[⟨1, "t", 0, 7, 0, 7⟩]]⟩ 0 (by decide) 0 ⟨9, "u", 1, 9, 9, 9⟩

/-- Claim C6: `GetMetrics` never fails and returns exactly one metric named
`persistent_kafka_lag` whose value is the evaluator's `totalCurrentLag` when
`IsActive` (which also never fails) reports the same snapshot as active, and
0 otherwise. -/
theorem GetMetrics_single_metric_coupling (snapshot : List LagSample) (cfg : ScalerConfig) :
    GetMetrics snapshot cfg
        = Except.ok [("persistent_kafka_lag",
            if (serverEvaluate snapshot cfg).persistent then
              (serverEvaluate snapshot cfg).totalCurrentLag
            else 0)] ∧
    IsActive snapshot cfg = Except.ok (serverEvaluate snapshot cfg).persistent ∧
    (IsActive snapshot cfg = Except.ok true ↔ (serverEvaluate snapshot cfg).persistent = true) := by
  refine ⟨rfl, rfl, ?_⟩
  constructor
  · intro hok
    have := congrArg (fun x => match x with | Except.ok b => b | Except.error _ => false) hok
    simpa [IsActive] using this
  · intro hp
    simp [IsActive, hp]

/-- Claim C7: the per-partition lag derivation of `FetchLag`.  The emitted
sample appears in the fetch result; its lag equals
`max 0 (end offset − committed offset)` where the committed offset is the
sample's (sentinel-adjusted) `offset` field; the lag is non-negative; and a
negative raw committed offset is treated as 0, making the lag equal to the
end offset. -/
theorem FetchLag_lag_clamped (now : Int) (topic : String)
    (parts : List (Int × Int × Int)) (pid endOffset rawCommitted : Int)
    (hmem : (pid, endOffset, rawCommitted) ∈ parts) (hend : 0 ≤ endOffset) :
    deriveSample now topic pid endOffset rawCommitted ∈ FetchLag now topic parts ∧
    (deriveSample now topic pid endOffset rawCommitted).lag
        = max 0 (endOffset - (deriveSample now topic pid endOffset rawCommitted).offset) ∧
    0 ≤ (deriveSample now topic pid endOffset rawCommitted).lag ∧
    (rawCommitted < 0 →
      (deriveSample now topic pid endOffset rawCommitted).offset = 0 ∧
      (deriveSample now topic pid endOffset rawCommitted).lag = endOffset) := by
  refine ⟨?_, ?_, ?_, ?_⟩
  · exact List.mem_map.mpr ⟨(pid, endOffset, rawCommitted), hmem, rfl⟩
  · simp only [deriveSample]
    split <;> rename_i hneg
    · split <;> rename_i hlag <;> simp <;> omega
    · split <;> rename_i hlag <;> simp <;> omega
  · simp only [deriveSample]
    split <;> split <;> simp <;> omega
  · intro hraw
    simp only [deriveSample, if_pos hraw]
    constructor
    · trivial
    · simp
      omega

/-- Witness for `FetchLag_lag_clamped` with a negative committed-offset
sentinel. -/
theorem FetchLag_lag_clamped_witness :
    deriveSample 3 "orders" 0 5 (-1) ∈ FetchLag 3 "orders" [(0, 5, -1)] ∧
    (deriveSample 3 "orders" 0 5 (-1)).lag
        = max 0 (5 - (deriveSample 3 "orders" 0 5 (-1)).offset) ∧
    0 ≤ (deriveSample 3 "orders" 0 5 (-1)).lag ∧
    ((-1 : Int) < 0 →
      (deriveSample 3 "orders" 0 5 (-1)).offset = 0 ∧
      (deriveSample 3 "orders" 0 5 (-1)).lag = 5) :=
  FetchLag_lag_clamped 3 "orders" [(0, 5, -1)] 0 5 (-1) (by decide) (by decide)

/-- Zeta-expanded form of `ParseFromMetadata`, for rewriting. -/
lemma ParseFromMetadata_unfold (md : List (String × String)) (env : String → String) :
    ParseFromMetadata md env =
      (if getMetadataOrEnv md "topic" "KAFKA_TOPIC" "" env = "" then
        Except.error "topic is required"
      else if getMetadataOrEnv md "consumerGroup" "KAFKA_GROUP_ID" "" env = "" then
        Except.error "consumerGroup is required"
      else
        (resolveIntField md env "lagThreshold" "LAG_THRESHOLD" 500
            "invalid lagThreshold" "invalid LAG_THRESHOLD").bind fun lagThreshold =>
        (resolveIntField md env "sustainSeconds" "SUSTAIN_SECONDS" 120
            "invalid sustainSeconds" "invalid SUSTAIN_SECONDS").bind fun sustainSeconds =>
        (resolveIntField md env "samplingInterval" "SAMPLING_INTERVAL" 10
            "invalid samplingInterval" "invalid SAMPLING_INTERVAL").bind fun samplingInterval =>
        (resolveIntField md env "windowSize" "WINDOW_SIZE" 30
            "invalid windowSize" "invalid WINDOW_SIZE").bind fun windowSize =>
        Except.ok
          { bootstrapServers :=
              getMetadataOrEnv md "bootstrapServers" "KAFKA_BROKERS" "localhost:9092" env
            topic := getMetadataOrEnv md "topic" "KAFKA_TOPIC" "" env
            consumerGroup := getMetadataOrEnv md "consumerGroup" "KAFKA_GROUP_ID" "" env
            lagThreshold := lagThreshold
            sustainDuration := sustainSeconds * timeSecond
            samplingInterval := samplingInterval * timeSecond
            windowSize := windowSize }) := rfl

/-- A numeric field resolves to a value or to one of its two error texts. -/
lemma resolveIntField_cases (md : List (String × String)) (env : String → String)
    (key envKey : String) (dflt : Int) (errMeta errEnv : String) :
    (∃ n, resolveIntField md env key envKey dflt errMeta errEnv = Except.ok n) ∨
    resolveIntField md env key envKey dflt errMeta errEnv = Except.error errMeta ∨
    resolveIntField md env key envKey dflt errMeta errEnv = Except.error errEnv := by
  unfold resolveIntField
  split
  · split
    · exact Or.inl ⟨_, rfl⟩
    · exact Or.inr (Or.inl rfl)
  · split
    · split
      · exact Or.inl ⟨_, rfl⟩
      · exact Or.inr (Or.inr rfl)
    · exact Or.inl ⟨_, rfl⟩

/-- Once both required fields resolve non-empty, any error of
`ParseFromMetadata` is one of the eight numeric-parse errors. -/
lemma ParseFromMetadata_error_not_required (md : List (String × String))
    (env : String → String)
    (ht : getMetadataOrEnv md "topic" "KAFKA_TOPIC" "" env ≠ "")
    (hg : getMetadataOrEnv md "consumerGroup" "KAFKA_GROUP_ID" "" env ≠ "") :
    ParseFromMetadata md env ≠ Except.error "topic is required" ∧
    ParseFromMetadata md env ≠ Except.error "consumerGroup is required" := by
  have hP : ∀ e : String, ParseFromMetadata md env = Except.error e →
      e = "invalid lagThreshold" ∨ e = "invalid LAG_THRESHOLD" ∨
      e = "invalid sustainSeconds" ∨ e = "invalid SUSTAIN_SECONDS" ∨
      e = "invalid samplingInterval" ∨ e = "invalid SAMPLING_INTERVAL" ∨
      e = "invalid windowSize" ∨ e = "invalid WINDOW_SIZE" := by
    intro e he
    rw [ParseFromMetadata_unfold, if_neg ht, if_neg hg] at he
    rcases resolveIntField_cases md env "lagThreshold" "LAG_THRESHOLD" 500
        "invalid lagThreshold" "invalid LAG_THRESHOLD" with ⟨n1, e1⟩ | e1 | e1
    · rw [e1] at he
      simp only [Except.bind] at he
      rcases resolveIntField_cases md env "sustainSeconds" "SUSTAIN_SECONDS" 120
          "invalid sustainSeconds" "invalid SUSTAIN_SECONDS" with ⟨n2, e2⟩ | e2 | e2
      · rw [e2] at he
        simp only [Except.bind] at he
        rcases resolveIntField_cases md env "samplingInterval" "SAMPLING_INTERVAL" 10
            "invalid samplingInterval" "invalid SAMPLING_INTERVAL" with ⟨n3, e3⟩ | e3 | e3
        · rw [e3] at he
          simp only [Except.bind] at he
          rcases resolveIntField_cases md env "windowSize" "WINDOW_SIZE" 30
              "invalid windowSize" "invalid WINDOW_SIZE" with ⟨n4, e4⟩ | e4 | e4
          · rw [e4] at he
            simp only [Except.bind] at he
            exact absurd he (by simp)
          · rw [e4] at he
            simp only [Except.bind] at he
            injection he with h
            subst h
            simp
          · rw [e4] at he
            simp only [Except.bind] at he
            injection he with h
            subst h
            simp
        · rw [e3] at he
          simp only [Except.bind] at he
          injection he with h
          subst h
          simp
        · rw [e3] at he
          simp only [Except.bind] at he
          injection he with h
          subst h
          simp
      · rw [e2] at he
        simp only [Except.bind] at he
        injection he with h
        subst h
        simp
      · rw [e2] at he
        simp only [Except.bind] at he
        injection he with h
        subst h
        simp
    · rw [e1] at he
      simp only [Except.bind] at he
      injection he with h
      subst h
      simp
    · rw [e1] at he
      simp only [Except.bind] at he
      injection he with h
      subst h
      simp
  constructor
  · intro hc
    rcases hP _ hc with h | h | h | h | h | h | h | h <;> simp at h
  · intro hc
    rcases hP _ hc with h | h | h | h | h | h | h | h <;> simp at h

/-- A required field resolves to the empty string exactly when its metadata
entry is absent or empty and its environment variable is unset or empty. -/
lemma getMetadataOrEnv_empty_iff (md : List (String × String)) (key envKey : String)
    (env : String → String) :
    getMetadataOrEnv md key envKey "" env = "" ↔
      ((md.lookup key = none ∨ md.lookup key = some "") ∧ env envKey = "") := by
  rcases hl : md.lookup key with _ | v
  · by_cases he : env envKey = "" <;> simp [getMetadataOrEnv, hl, he]
  · by_cases hv : v = ""
    · subst hv
      by_cases he : env envKey = "" <;> simp [getMetadataOrEnv, hl, he]
    · simp [getMetadataOrEnv, hl, hv]

/-- Claim C10 fails as stated in one corner: with both topic and
consumerGroup missing (empty metadata, empty environment), the consumerGroup
pair is missing on both sides, yet `ParseFromMetadata` returns the topic
error, not `consumerGroup is required`. -/
theorem getMetadataOrEnv_required_counterexample :
    List.lookup "consumerGroup" ([] : List (String × String)) = none ∧
    (fun _ : String => "") "KAFKA_GROUP_ID" = "" ∧
    ParseFromMetadata [] (fun _ => "") = Except.error "topic is required" ∧
    ParseFromMetadata [] (fun _ => "") ≠ Except.error "consumerGroup is required" := by
  refine ⟨rfl, rfl, rfl, ?_⟩
  intro hc
  rw [show ParseFromMetadata [] (fun _ => "") = Except.error "topic is required" from rfl] at hc
  injection hc with h
  simp at h

/-- Claim C10 (amended): a present-but-empty metadata entry is treated as
absent (resolution falls back to the environment variable, then the
default); `topic is required` is returned exactly when topic's non-empty
metadata value and environment variable are both missing; and
`consumerGroup is required` is returned exactly when consumerGroup's
non-empty metadata value and environment variable are both missing while
topic's are not (a missing topic shadows the consumerGroup error). -/
theorem ParseFromMetadata_required_iff (md : List (String × String))
    (env : String → String) :
    (∀ key envKey dflt : String,
      (md.lookup key = none ∨ md.lookup key = some "") →
        getMetadataOrEnv md key envKey dflt env
          = if env envKey = "" then dflt else env envKey) ∧
    (ParseFromMetadata md env = Except.error "topic is required" ↔
      ((md.lookup "topic" = none ∨ md.lookup "topic" = some "") ∧
        env "KAFKA_TOPIC" = "")) ∧
    (ParseFromMetadata md env = Except.error "consumerGroup is required" ↔
      (((md.lookup "consumerGroup" = none ∨ md.lookup "consumerGroup" = some "") ∧
          env "KAFKA_GROUP_ID" = "") ∧
        ¬ ((md.lookup "topic" = none ∨ md.lookup "topic" = some "") ∧
            env "KAFKA_TOPIC" = ""))) := by
  refine ⟨?_, ?_, ?_⟩
  · intro key envKey dflt h
    rcases h with h | h
    · by_cases he : env envKey = "" <;> simp [getMetadataOrEnv, h, he]
    · by_cases he : env envKey = "" <;> simp [getMetadataOrEnv, h, he]
  · rw [← getMetadataOrEnv_empty_iff md "topic" "KAFKA_TOPIC" env]
    constructor
    · intro hc
      by_contra ht
      by_cases hg : getMetadataOrEnv md "consumerGroup" "KAFKA_GROUP_ID" "" env = ""
      · rw [ParseFromMetadata_unfold, if_neg ht, if_pos hg] at hc
        injection hc with h
        simp at h
      · exact (ParseFromMetadata_error_not_required md env ht hg).1 hc
    · intro ht
      rw [ParseFromMetadata_unfold, if_pos ht]
  · rw [← getMetadataOrEnv_empty_iff md "consumerGroup" "KAFKA_GROUP_ID" env,
      ← getMetadataOrEnv_empty_iff md "topic" "KAFKA_TOPIC" env]
    constructor
    · intro hc
      by_cases ht : getMetadataOrEnv md "topic" "KAFKA_TOPIC" "" env = ""
      · exfalso
        rw [ParseFromMetadata_unfold, if_pos ht] at hc
        injection hc with h
        simp at h
      · by_cases hg : getMetadataOrEnv md "consumerGroup" "KAFKA_GROUP_ID" "" env = ""
        · exact ⟨hg, ht⟩
        · exact absurd hc (ParseFromMetadata_error_not_required md env ht hg).2
    · rintro ⟨hg, ht⟩
      rw [ParseFromMetadata_unfold, if_neg ht, if_pos hg]

/-- Witness for `ParseFromMetadata_required_iff`: with only the topic given
in metadata, the consumerGroup requirement fires. -/
theorem ParseFromMetadata_required_iff_witness :
    ParseFromMetadata [("topic", "orders")] (fun _ => "")
      = Except.error "consumerGroup is required" :=
  (ParseFromMetadata_required_iff [("topic", "orders")] (fun _ => "")).2.2.mpr
    ⟨⟨Or.inl (by decide), rfl⟩, by
      rintro ⟨h | h, -⟩ <;> simp at h⟩

/-- Claim C4 fails on the code: `ParseFromMetadata` performs no positivity
check, so a zero `sustainSeconds` and a negative `samplingInterval` are both
accepted and a config is returned instead of an error. -/
theorem ParseFromMetadata_accepts_nonpositive_durations :
    (∃ cfg, ParseFromMetadata [("topic", "t"), ("consumerGroup", "g"), ("sustainSeconds", "0")]
        (fun _ => "") = Except.ok cfg ∧ cfg.sustainDuration ≤ 0) ∧
    (∃ cfg, ParseFromMetadata [("topic", "t"), ("consumerGroup", "g"), ("samplingInterval", "-5")]
        (fun _ => "") = Except.ok cfg ∧ cfg.samplingInterval ≤ 0) := by
  constructor
  · exact ⟨⟨"localhost:9092", "t", "g", 500, 0, 10000000000, 30⟩, by rfl, by decide⟩
  · exact ⟨⟨"localhost:9092", "t", "g", 500, 120000000000, -5000000000, 30⟩, by rfl, by decide⟩

/-- Claim C5 fails on the code: `ParseFromMetadata` never checks
`sustainDuration ≤ windowSize × samplingInterval`; a sustain duration of
1000 s against the default 300 s window (30 × 10 s) is accepted. -/
theorem ParseFromMetadata_accepts_sustain_gt_window :
    ∃ cfg, ParseFromMetadata [("topic", "t"), ("consumerGroup", "g"), ("sustainSeconds", "1000")]
        (fun _ => "") = Except.ok cfg ∧
      cfg.windowSize * cfg.samplingInterval < cfg.sustainDuration := by
  exact ⟨⟨"localhost:9092", "t", "g", 500, 1000000000000, 10000000000, 30⟩, by rfl, by decide⟩
